import Mathlib

/-!
Shallow embedding of the REST dispatch core found in
`OrthancFramework/Sources/RestApi/RestApi.cpp` (Orthanc).

The file models, directly from the source:
  * `MethodsToString` / `AddMethod` (the Allow-header string builder);
  * the Accept-header content negotiation loop of `RestApi::Handle`;
  * the match / method-fallback branching of `RestApi::Handle`;
  * `HttpHandlerVisitor::Visit` (live dispatch);
  * `OpenApiVisitor::Visit` and `RestApi::GenerateOpenApiDocumentation`
    (documentation probing, counters, coverage and duplicate-path check).

Code of the repository that is outside this slice (the URI trie
`RestApiHierarchy`, `Toolbox` helpers, the concrete handlers) is modelled
from the spec where needed; each such definition carries a doc comment
starting with `Modelled from the spec:`.
-/

set_option autoImplicit false
set_option linter.unusedVariables false

namespace RestApiModel

/-- The HTTP methods of the `HttpMethod` enumeration (`HttpMethod_Get`,
`HttpMethod_Post`, `HttpMethod_Delete`, `HttpMethod_Put`). -/
inductive HttpMethod where
  | get
  | post
  | delete
  | put
deriving DecidableEq, Repr

/-- The `std::set<HttpMethod>` produced by `GetAcceptedMethods`, represented
by its characteristic membership on the four possible methods. -/
structure MethodSet where
  get : Bool
  post : Bool
  put : Bool
  delete : Bool
deriving DecidableEq, Repr

/-- Membership test (`methods.find(m) != methods.end()`). -/
def MethodSet.mem (s : MethodSet) : HttpMethod → Bool
  | .get => s.get
  | .post => s.post
  | .put => s.put
  | .delete => s.delete

/-- `methods.empty()`. -/
def MethodSet.isEmpty (s : MethodSet) : Bool :=
  !s.get && !s.post && !s.put && !s.delete

/-- `AddMethod` from `RestApi.cpp`: append a method name to the
comma-separated target, with no leading comma on the first one. -/
def AddMethod (target method : String) : String :=
  if target.length > 0 then target ++ "," ++ method else method

/-- `MethodsToString` from `RestApi.cpp`: the Allow-header value, built by
testing membership in the fixed order GET, POST, PUT, DELETE. -/
def MethodsToString (s : MethodSet) : String :=
  let t := ""
  let t := if s.get then AddMethod t "GET" else t
  let t := if s.post then AddMethod t "POST" else t
  let t := if s.put then AddMethod t "PUT" else t
  let t := if s.delete then AddMethod t "DELETE" else t
  t

/-- Uppercase name of a method, as it appears in the Allow header. -/
def methodName : HttpMethod → String
  | .get => "GET"
  | .post => "POST"
  | .put => "PUT"
  | .delete => "DELETE"

/-- The fixed canonical order GET, POST, PUT, DELETE used by the spec for
the Allow header. -/
def canonicalMethodOrder : List HttpMethod :=
  [.get, .post, .put, .delete]

/-- Specification-side description of the Allow header: the names of the
members of the set, in canonical order. -/
def canonicalAllowList (s : MethodSet) : List String :=
  (canonicalMethodOrder.filter s.mem).map methodName

/-- First-match association-list lookup, standing for `std::map::find` /
`Json::Value::isMember`-style lookups by string key. -/
def alookup {α : Type} (key : String) : List (String × α) → Option α
  | [] => none
  | (k, v) :: rest => if k = key then some v else alookup key rest

/-- `MIME_XML`. -/
def MIME_XML : String := "application/xml"

/-- `MIME_JSON`. -/
def MIME_JSON : String := "application/json"

/-- One iteration of the Accept-token loop in `RestApi::Handle`: the XML
token turns JSON-to-XML conversion on, the JSON token turns it off (two
independent checks, in this order). -/
def applyAcceptToken (flag : Bool) (token : String) : Bool :=
  let flag := if token = MIME_XML then true else flag
  if token = MIME_JSON then false else flag

/-- Splitting helper: accumulate the current token (in reverse) and start
a new token at each separator. -/
def tokenizeAux (sep : Char) (acc : List Char) : List Char → List String
  | [] => [String.mk acc.reverse]
  | c :: rest =>
    if c = sep then String.mk acc.reverse :: tokenizeAux sep [] rest
    else tokenizeAux sep (c :: acc) rest

/-- Modelled from the spec: `Toolbox::TokenizeString` is outside this
slice; the spec says the Accept header value is tokenized on `;`. -/
def tokenizeAccept (value : String) : List String :=
  tokenizeAux ';' [] value.data

/-- The content negotiation performed by `RestApi::Handle`: look up the
`accept` header; when present, fold the token loop over its tokens starting
from the default (no conversion, i.e. JSON output). -/
def negotiateAccept (headers : List (String × String)) : Bool :=
  match alookup "accept" headers with
  | none => false
  | some value => (tokenizeAccept value).foldl applyAcceptToken false

/-- Specification-side helper: the last token of the list that is one of
the two recognized media types, if any (later tokens take precedence). -/
def lastRecognizedToken : List String → Option String
  | [] => none
  | t :: rest =>
    match lastRecognizedToken rest with
    | some u => some u
    | none => if t = MIME_XML ∨ t = MIME_JSON then some t else none

/-- Specification-side description of the negotiated mode: XML output
exactly when the last recognized token is the XML media type. -/
def specLastRecognizedWins (tokens : List String) : Bool :=
  match lastRecognizedToken tokens with
  | some t => t = MIME_XML
  | none => false

/-- Observable output actions of `RestApi::Handle`. -/
inductive OutputAction where
  | finalizeWrapped
  | sendMethodNotAllowed (allow : String)
deriving DecidableEq, Repr

/-- Result of one `RestApi::Handle` call: the returned boolean, the
negotiated JSON-to-XML flag of the wrapped output, and the output actions
performed. -/
structure HandleResult where
  handled : Bool
  convertJsonToXml : Bool
  actions : List OutputAction
deriving DecidableEq, Repr

/-- `RestApi::Handle`.  The URI trie `RestApiHierarchy` is outside this
slice, so the two facts `Handle` obtains from it are passed as parameters:
`lookupMatched` stands for the boolean returned by
`root_.LookupResource(uri, visitor)` (structural match accepted by the
live-dispatch visitor) and `accepted` for the set filled by
`root_.GetAcceptedMethods(methods, uri)`. -/
def RestApi.Handle (lookupMatched : Bool) (accepted : MethodSet)
    (headers : List (String × String)) : HandleResult :=
  let convert := negotiateAccept headers
  if lookupMatched then
    { handled := true, convertJsonToXml := convert,
      actions := [.finalizeWrapped] }
  else if accepted.isEmpty then
    { handled := false, convertJsonToXml := convert, actions := [] }
  else
    { handled := true, convertJsonToXml := convert,
      actions := [.sendMethodNotAllowed (MethodsToString accepted)] }

/-- A `RestApiHierarchy::Resource` as the live dispatch sees it: at most
one handler per HTTP method.  Handlers are opaque and identified by a
natural number. -/
structure LiveResource where
  get : Option Nat
  post : Option Nat
  delete : Option Nat
  put : Option Nat
deriving DecidableEq, Repr

/-- Handler registered for a method at this resource
(`Resource::HasHandler` / `Resource::Handle` dispatch on the call type). -/
def LiveResource.handlerOf (r : LiveResource) : HttpMethod → Option Nat
  | .get => r.get
  | .post => r.post
  | .delete => r.delete
  | .put => r.put

/-- The per-request state captured by `HttpHandlerVisitor`'s constructor. -/
structure LiveVisitorContext where
  origin : String
  remoteIp : String
  username : String
  method : HttpMethod
  headers : List (String × String)
  getArguments : List (String × String)
  body : List Nat
deriving DecidableEq, Repr

/-- The per-method call objects built by `HttpHandlerVisitor::Visit`
(`RestApiGetCall`, `RestApiPostCall`, `RestApiDeleteCall`,
`RestApiPutCall`), with the data each constructor receives. -/
inductive RestApiCallModel where
  | get (origin remoteIp username : String)
      (headers components : List (String × String))
      (trailing uri : List String)
      (getArguments : List (String × String))
  | post (origin remoteIp username : String)
      (headers components : List (String × String))
      (trailing uri : List String)
      (body : List Nat)
  | del (origin remoteIp username : String)
      (headers components : List (String × String))
      (trailing uri : List String)
  | put (origin remoteIp username : String)
      (headers components : List (String × String))
      (trailing uri : List String)
      (body : List Nat)
deriving DecidableEq, Repr

/-- `HttpHandlerVisitor::Visit`: when the resource has a handler for the
configured method, build the per-method call and invoke that handler once
(the invocation list records the handler and the call it received), and
return true; otherwise return false and invoke nothing. -/
def HttpHandlerVisitor.Visit (ctx : LiveVisitorContext)
    (resource : LiveResource) (uri : List String) (hasTrailing : Bool)
    (components : List (String × String)) (trailing : List String) :
    Bool × List (Nat × RestApiCallModel) :=
  match resource.handlerOf ctx.method with
  | none => (false, [])
  | some h =>
    match ctx.method with
    | .get =>
      (true, [(h, .get ctx.origin ctx.remoteIp ctx.username ctx.headers
                  components trailing uri ctx.getArguments)])
    | .post =>
      (true, [(h, .post ctx.origin ctx.remoteIp ctx.username ctx.headers
                  components trailing uri ctx.body)])
    | .delete =>
      (true, [(h, .del ctx.origin ctx.remoteIp ctx.username ctx.headers
                  components trailing uri)])
    | .put =>
      (true, [(h, .put ctx.origin ctx.remoteIp ctx.username ctx.headers
                  components trailing uri ctx.body)])

/-- A JSON value, standing for `Json::Value` as used by the documentation
generator. -/
inductive Json where
  | null
  | str (s : String)
  | num (n : Int)
  | obj (fields : List (String × Json))
  | arr (elements : List Json)

/-- Outcome of dry-running one method's handler in documentation mode.
Modelled from the spec: the handler bodies, `RestApiCall::Handle` and
`RestApiCallDocumentation::FormatOpenApi` are outside this slice, so the
observable outcome of the probe
`resource.Handle(call) && call.GetDocumentation().FormatOpenApi(v, names)`
is given as data: either both booleans together with the formatted
fragment, or one of the two exception kinds that `OpenApiVisitor::Visit`
catches (`OrthancException`, `boost::bad_lexical_cast`). -/
inductive DryRun where
  | result (handled : Bool) (formatOk : Bool) (fragment : Json)
  | throwOrthanc
  | throwBadLexicalCast

/-- The fragment stored when the probe succeeds: present exactly when
`Handle` returned true, `FormatOpenApi` returned true and no exception was
raised. -/
def DryRun.successFragment : DryRun → Option Json
  | .result true true v => some v
  | _ => none

/-- A `RestApiHierarchy::Resource` as the documentation visitor sees it:
for each method, the optional handler together with its dry-run
behaviour. -/
structure DocResource where
  get : Option DryRun
  post : Option DryRun
  delete : Option DryRun
  put : Option DryRun

/-- Dry-run behaviour registered for a method at this resource. -/
def DocResource.handlerOf (r : DocResource) : HttpMethod → Option DryRun
  | .get => r.get
  | .post => r.post
  | .delete => r.delete
  | .put => r.put

/-- One node handed to the visitor by `ExploreAllResources`: the resource,
the flattened URI components, whether the node has a trailing wildcard,
and the names of the bound capture arguments (whose values are all empty
during exploration). -/
structure NodeInfo where
  resource : DocResource
  uri : List String
  hasTrailing : Bool
  components : List String

/-- Modelled from the spec: `Toolbox::FlattenUri` is outside this slice;
the flattened URI joins the segments with slashes after a leading slash. -/
def FlattenUri (uri : List String) : String :=
  "/" ++ String.intercalate "/" uri

/-- The key used in the `paths` map: the flattened URI, with the literal
suffix `/{...}` appended exactly when the node has a trailing wildcard. -/
def openApiPathKey (uri : List String) (hasTrailing : Bool) : String :=
  FlattenUri uri ++ (if hasTrailing then "/\x7b...\x7d" else "")

/-- `paths_[path][method] = v` on the association-list representation of
the accumulated `paths_` object: update the first entry for `path` by
appending the method key, or append a fresh entry at the end. -/
def setFragment (paths : List (String × List (String × Json)))
    (path method : String) (v : Json) : List (String × List (String × Json)) :=
  match paths with
  | [] => [(path, [(method, v)])]
  | (p, ms) :: rest =>
    if p = path then (p, ms ++ [(method, v)]) :: rest
    else (p, ms) :: setFragment rest path method v

/-- The mutable state of an `OpenApiVisitor`: the accumulated `paths_`
object, the two counters, and the warnings logged so far. -/
structure OpenApiState where
  paths : List (String × List (String × Json))
  successPathsCount : Nat
  totalPathsCount : Nat
  warnings : List String

/-- State of a freshly constructed `OpenApiVisitor`. -/
def initialOpenApiState : OpenApiState :=
  { paths := [], successPathsCount := 0, totalPathsCount := 0, warnings := [] }

/-- The error codes thrown by this slice (`ErrorCode_InternalError`). -/
inductive OrthancErrorCode where
  | internalError
deriving DecidableEq, Repr

/-- The warning logged when a probe fails:
`"Ignoring URI without API documentation: <METHOD> <path>"`. -/
def docWarning (methodUpper path : String) : String :=
  "Ignoring URI without API documentation: " ++ methodUpper ++ " " ++ path

/-- One per-method block of `OpenApiVisitor::Visit`: if the resource has a
handler for this method, increment `totalPathsCount_`, dry-run the
handler; on success store the fragment under the lowercase method name and
increment `successPathsCount_`, otherwise log the warning. -/
def processMethod (st : OpenApiState) (path upper lower : String)
    (h : Option DryRun) : OpenApiState :=
  match h with
  | none => st
  | some d =>
    let st1 := { st with totalPathsCount := st.totalPathsCount + 1 }
    match d.successFragment with
    | some v =>
      { st1 with paths := setFragment st1.paths path lower v,
                 successPathsCount := st1.successPathsCount + 1 }
    | none =>
      { st1 with warnings := st1.warnings ++ [docWarning upper path] }

/-- The state after the four per-method blocks of `OpenApiVisitor::Visit`,
in source order GET, POST, DELETE, PUT. -/
def visitState (st : OpenApiState) (n : NodeInfo) : OpenApiState :=
  let path := openApiPathKey n.uri n.hasTrailing
  let st := processMethod st path "GET" "get" n.resource.get
  let st := processMethod st path "POST" "post" n.resource.post
  let st := processMethod st path "DELETE" "delete" n.resource.delete
  let st := processMethod st path "PUT" "put" n.resource.put
  st

/-- `OpenApiVisitor::Visit`: compute the path key; if `paths_` already has
a member with that key, throw `OrthancException(ErrorCode_InternalError)`;
otherwise run the four per-method blocks and return true. -/
def OpenApiVisitor.Visit (st : OpenApiState) (n : NodeInfo) :
    Except OrthancErrorCode (OpenApiState × Bool) :=
  if (alookup (openApiPathKey n.uri n.hasTrailing) st.paths).isSome then
    .error .internalError
  else
    .ok (visitState st n, true)

/-- Modelled from the spec: `RestApiHierarchy::ExploreAllResources` is
outside this slice; it visits every node holding at least one handler
exactly once, so the exploration is the fold of `OpenApiVisitor::Visit`
over the list of such nodes.  An exception raised by `Visit` propagates. -/
def runOpenApi : List NodeInfo → OpenApiState → Except OrthancErrorCode OpenApiState
  | [], st => .ok st
  | n :: rest, st =>
    match OpenApiVisitor.Visit st n with
    | .error e => .error e
    | .ok (st', _) => runOpenApi rest st'

/-- The `paths_` object as a JSON value. -/
def pathsToJson (paths : List (String × List (String × Json))) : Json :=
  Json.obj (paths.map fun pm => (pm.1, Json.obj pm.2))

/-- What `RestApi::GenerateOpenApiDocumentation` produces: the `target`
document, the two counters, and the coverage percentage that is logged
(the floating-point expression `100.0f * success / total` is embedded at
rational precision). -/
structure OpenApiDocResult where
  target : Json
  successCount : Nat
  totalCount : Nat
  coverage : ℚ

/-- `RestApi::GenerateOpenApiDocumentation`: run the exploration with a
fresh visitor, then assemble the document (`info`, `openapi = "3.0.0"`,
`servers = []`, `paths`) and the coverage, replacing a zero total by one
to avoid division by zero.  Nothing here catches the duplicate-path
exception, so it propagates. -/
def GenerateOpenApiDocumentation (nodes : List NodeInfo) :
    Except OrthancErrorCode OpenApiDocResult :=
  match runOpenApi nodes initialOpenApiState with
  | .error e => .error e
  | .ok st =>
    let total := if st.totalPathsCount = 0 then 1 else st.totalPathsCount
    .ok { target := Json.obj [("info", Json.obj []),
                              ("openapi", Json.str "3.0.0"),
                              ("servers", Json.arr []),
                              ("paths", pathsToJson st.paths)],
          successCount := st.successPathsCount,
          totalCount := st.totalPathsCount,
          coverage := 100 * (st.successPathsCount : ℚ) / (total : ℚ) }

/-- Number of methods with a registered handler at a resource: the
contribution of one visited node to `totalPathsCount_`. -/
def countMethods (r : DocResource) : Nat :=
  (if r.get.isSome then 1 else 0) + (if r.post.isSome then 1 else 0) +
    (if r.delete.isSome then 1 else 0) + (if r.put.isSome then 1 else 0)

/-- Contribution of one optional handler to `successPathsCount_`. -/
def optSuccess (h : Option DryRun) : Nat :=
  match h with
  | none => 0
  | some d => match d.successFragment with
    | some _ => 1
    | none => 0

/-- Number of methods whose dry run succeeds at a resource: the
contribution of one visited node to `successPathsCount_`. -/
def countSuccess (r : DocResource) : Nat :=
  optSuccess r.get + optSuccess r.post + optSuccess r.delete + optSuccess r.put

/-- The fragment recorded for a method at a path, if any. -/
def fragmentLookup (st : OpenApiState) (path method : String) : Option Json :=
  match alookup path st.paths with
  | none => none
  | some ms => alookup method ms

/-- Lowercase name of a method, as used for the per-path keys. -/
def methodLower : HttpMethod → String
  | .get => "get"
  | .post => "post"
  | .delete => "delete"
  | .put => "put"

/-- A sample documentation fragment. -/
def demoFragment : Json := Json.obj [("summary", Json.str "demo")]

/-- A sample resource: GET documents successfully, POST raises an
`OrthancException` during the dry run. -/
def demoDocResource : DocResource :=
  { get := some (.result true true demoFragment),
    post := some .throwOrthanc, delete := none, put := none }

/-- A sample visited node at URI `/demo`. -/
def demoNode : NodeInfo :=
  { resource := demoDocResource, uri := ["demo"], hasTrailing := false,
    components := [] }

/-- A sample node with a trailing wildcard at URI `/plugins`. -/
def demoTrailingNode : NodeInfo :=
  { resource := { get := some (.result true true Json.null),
                  post := none, delete := none, put := none },
    uri := ["plugins"], hasTrailing := true, components := [] }

/-- A sample exploration: the two sample nodes. -/
def demoNodes : List NodeInfo := [demoNode, demoTrailingNode]

/-- The visitor state after exploring `demoNodes`. -/
def demoState : OpenApiState :=
  { paths := [("/demo", [("get", demoFragment)]),
              ("/plugins/\x7b...\x7d", [("get", Json.null)])],
    successPathsCount := 2,
    totalPathsCount := 3,
    warnings := [docWarning "POST" "/demo"] }

/-- The visitor state after exploring only `demoNode`. -/
def demoState1 : OpenApiState :=
  { paths := [("/demo", [("get", demoFragment)])],
    successPathsCount := 1,
    totalPathsCount := 2,
    warnings := [docWarning "POST" "/demo"] }

/-- The document generated for `demoNodes`. -/
def demoResult : OpenApiDocResult :=
  match GenerateOpenApiDocumentation demoNodes with
  | .ok r => r
  | .error _ =>
    { target := Json.null, successCount := 0, totalCount := 0, coverage := 0 }

/-- Invariant on the accumulated `paths_` entries relative to the visited
nodes: every path key is the flattened key of some visited node, and every
per-path key is one of the four lowercase method names. -/
def entryInv (nodes : List NodeInfo)
    (paths : List (String × List (String × Json))) : Prop :=
  ∀ p ms, (p, ms) ∈ paths →
    (∃ n ∈ nodes, p = openApiPathKey n.uri n.hasTrailing) ∧
    ∀ k w, (k, w) ∈ ms → k ∈ (["get", "post", "delete", "put"] : List String)

/-- A sample live-request context: a GET request. -/
def demoLiveCtx : LiveVisitorContext :=
  { origin := "origin", remoteIp := "ip", username := "user",
    method := .get, headers := [("accept", "application/json")],
    getArguments := [("since", "0")], body := [] }

/-- A sample live resource with only a GET handler, identified as 7. -/
def demoLiveResource : LiveResource :=
  { get := some 7, post := none, delete := none, put := none }

theorem foldl_accept_eq (tokens : List String) : ∀ b : Bool,
    tokens.foldl applyAcceptToken b =
      (match lastRecognizedToken tokens with
       | some u => decide (u = MIME_XML)
       | none => b) := by
  induction tokens with
  | nil => intro b; rfl
  | cons t rest ih =>
    intro b
    simp only [List.foldl_cons, ih]
    cases hrec : lastRecognizedToken rest with
    | some u => simp [lastRecognizedToken, hrec]
    | none =>
      simp only [lastRecognizedToken, hrec]
      by_cases hj : t = MIME_JSON
      · have hxj : ¬ (MIME_JSON = MIME_XML) := by decide
        subst hj
        simp [applyAcceptToken, hxj]
      · by_cases hx : t = MIME_XML
        · subst hx
          have hxj : ¬ (MIME_XML = MIME_JSON) := by decide
          simp [applyAcceptToken, hxj]
        · simp [applyAcceptToken, hx, hj]

theorem alookup_cons {α : Type} (key k : String) (v : α) (l : List (String × α)) :
    alookup key ((k, v) :: l) = if k = key then some v else alookup key l := rfl

theorem alookup_append_singleton_ne {α : Type} (key L : String) (v : α)
    (ms : List (String × α)) (hne : key ≠ L) :
    alookup key (ms ++ [(L, v)]) = alookup key ms := by
  induction ms with
  | nil => simp [alookup, Ne.symm hne]
  | cons p rest ih =>
    obtain ⟨k, w⟩ := p
    by_cases hk : k = key
    · simp [alookup, hk]
    · simp [alookup, hk, ih]

theorem setFragment_alookup_self (paths : List (String × List (String × Json)))
    (path L : String) (v : Json) :
    alookup path (setFragment paths path L v) =
      some ((alookup path paths).getD [] ++ [(L, v)]) := by
  induction paths with
  | nil => simp [setFragment, alookup]
  | cons p rest ih =>
    obtain ⟨pk, ms⟩ := p
    by_cases hp : pk = path
    · subst hp
      simp [setFragment, alookup]
    · simp [setFragment, alookup, hp, ih]

theorem setFragment_alookup_other (paths : List (String × List (String × Json)))
    (path p' L : String) (v : Json) (hne : p' ≠ path) :
    alookup p' (setFragment paths path L v) = alookup p' paths := by
  induction paths with
  | nil => simp [setFragment, alookup, Ne.symm hne]
  | cons q rest ih =>
    obtain ⟨pk, ms⟩ := q
    by_cases hp : pk = path
    · subst hp
      simp [setFragment, alookup, Ne.symm hne]
    · by_cases hk : pk = p'
      · simp [setFragment, alookup, hp, hk, hne]
      · simp [setFragment, alookup, hp, hk, ih]

theorem setFragment_entry_origin {paths : List (String × List (String × Json))}
    {path L : String} {v : Json} {p : String} {ms : List (String × Json)}
    (h : (p, ms) ∈ setFragment paths path L v) :
    (∃ ms0, (p, ms0) ∈ paths ∧ (ms = ms0 ∨ ms = ms0 ++ [(L, v)])) ∨
      (p = path ∧ ms = [(L, v)]) := by
  induction paths with
  | nil =>
    simp only [setFragment, List.mem_singleton, Prod.mk.injEq] at h
    exact Or.inr ⟨h.1, h.2⟩
  | cons q rest ih =>
    obtain ⟨pk, qs⟩ := q
    by_cases hp : pk = path
    · subst hp
      simp only [setFragment, if_pos rfl] at h
      rcases List.mem_cons.mp h with heq | hmem
      · rw [Prod.mk.injEq] at heq
        obtain ⟨h1, h2⟩ := heq
        subst h1
        exact Or.inl ⟨qs, List.mem_cons_self _ _, Or.inr h2⟩
      · exact Or.inl ⟨ms, List.mem_cons_of_mem _ hmem, Or.inl rfl⟩
    · simp only [setFragment, if_neg hp] at h
      rcases List.mem_cons.mp h with heq | hmem
      · rw [Prod.mk.injEq] at heq
        obtain ⟨h1, h2⟩ := heq
        subst h1
        subst h2
        exact Or.inl ⟨ms, List.mem_cons_self _ _, Or.inl rfl⟩
      · rcases ih hmem with ⟨ms0, hms0, hor⟩ | hnew
        · exact Or.inl ⟨ms0, List.mem_cons_of_mem _ hms0, hor⟩
        · exact Or.inr hnew

theorem processMethod_totalPathsCount (st : OpenApiState) (path u l : String)
    (h : Option DryRun) :
    (processMethod st path u l h).totalPathsCount =
      st.totalPathsCount + (if h.isSome then 1 else 0) := by
  cases h with
  | none => simp [processMethod]
  | some d => cases hd : d.successFragment <;> simp [processMethod, hd]

theorem processMethod_successPathsCount (st : OpenApiState) (path u l : String)
    (h : Option DryRun) :
    (processMethod st path u l h).successPathsCount =
      st.successPathsCount + optSuccess h := by
  cases h with
  | none => simp [processMethod, optSuccess]
  | some d => cases hd : d.successFragment <;> simp [processMethod, optSuccess, hd]

theorem processMethod_warnings_mono (st : OpenApiState) (path u l : String)
    (h : Option DryRun) (w : String) (hw : w ∈ st.warnings) :
    w ∈ (processMethod st path u l h).warnings := by
  cases h with
  | none => exact hw
  | some d => cases hd : d.successFragment <;> simp [processMethod, hd, hw]

theorem processMethod_warning_added (st : OpenApiState) (path u l : String)
    (d : DryRun) (hd : d.successFragment = none) :
    docWarning u path ∈ (processMethod st path u l (some d)).warnings := by
  simp [processMethod, hd]

theorem processMethod_paths_nosucc (st : OpenApiState) (path u l : String)
    (h : Option DryRun) (hns : optSuccess h = 0) :
    (processMethod st path u l h).paths = st.paths := by
  cases h with
  | none => rfl
  | some d =>
    cases hd : d.successFragment with
    | none => simp [processMethod, hd]
    | some v => simp [optSuccess, hd] at hns

theorem processMethod_paths_succ (st : OpenApiState) (path u l : String)
    (d : DryRun) (v : Json) (hd : d.successFragment = some v) :
    (processMethod st path u l (some d)).paths = setFragment st.paths path l v := by
  simp [processMethod, hd]

theorem processMethod_fragment_free (path mlow : String) (st : OpenApiState)
    (u L : String) (h : Option DryRun)
    (hcase : L ≠ mlow ∨ optSuccess h = 0)
    (hQ : ∀ ms, alookup path st.paths = some ms → alookup mlow ms = none) :
    ∀ ms, alookup path (processMethod st path u L h).paths = some ms →
      alookup mlow ms = none := by
  intro ms hms
  cases h with
  | none => exact hQ ms hms
  | some d =>
    cases hd : d.successFragment with
    | none =>
      rw [processMethod_paths_nosucc st path u L (some d)
        (by simp [optSuccess, hd])] at hms
      exact hQ ms hms
    | some v =>
      rcases hcase with hL | hns
      · rw [processMethod_paths_succ st path u L d v hd,
            setFragment_alookup_self] at hms
        have hmseq : ms = (alookup path st.paths).getD [] ++ [(L, v)] :=
          (Option.some.inj hms).symm
        rw [hmseq, alookup_append_singleton_ne _ _ _ _ (Ne.symm hL)]
        cases ho : alookup path st.paths with
        | none => simp [alookup]
        | some ms0 => simpa using hQ ms0 ho
      · simp [optSuccess, hd] at hns

theorem visitState_totalPathsCount (st : OpenApiState) (n : NodeInfo) :
    (visitState st n).totalPathsCount =
      st.totalPathsCount + countMethods n.resource := by
  simp only [visitState, processMethod_totalPathsCount, countMethods]
  omega

theorem visitState_successPathsCount (st : OpenApiState) (n : NodeInfo) :
    (visitState st n).successPathsCount =
      st.successPathsCount + countSuccess n.resource := by
  simp only [visitState, processMethod_successPathsCount, countSuccess]
  omega

theorem visit_eq_ok {st : OpenApiState} {n : NodeInfo} {st' : OpenApiState}
    {b : Bool} (h : OpenApiVisitor.Visit st n = .ok (st', b)) :
    st' = visitState st n ∧ b = true := by
  unfold OpenApiVisitor.Visit at h
  by_cases hc : (alookup (openApiPathKey n.uri n.hasTrailing) st.paths).isSome
  · rw [if_pos hc] at h
    exact Except.noConfusion h
  · rw [if_neg hc] at h
    have h2 := Except.ok.inj h
    rw [Prod.ext_iff] at h2
    exact ⟨h2.1.symm, h2.2.symm⟩

theorem visit_fresh_ok (st : OpenApiState) (n : NodeInfo)
    (hfresh : alookup (openApiPathKey n.uri n.hasTrailing) st.paths = none) :
    OpenApiVisitor.Visit st n = .ok (visitState st n, true) := by
  simp [OpenApiVisitor.Visit, hfresh]

theorem runOpenApi_append (l1 l2 : List NodeInfo) : ∀ st : OpenApiState,
    runOpenApi (l1 ++ l2) st =
      (match runOpenApi l1 st with
       | .ok st' => runOpenApi l2 st'
       | .error e => .error e) := by
  induction l1 with
  | nil => intro st; rfl
  | cons n rest ih =>
    intro st
    simp only [List.cons_append, runOpenApi]
    cases OpenApiVisitor.Visit st n with
    | error e => rfl
    | ok p =>
      obtain ⟨st1, b⟩ := p
      simp [ih]

theorem runOpenApi_counts (l : List NodeInfo) : ∀ st st' : OpenApiState,
    runOpenApi l st = .ok st' →
    st'.totalPathsCount =
      st.totalPathsCount + (l.map fun n => countMethods n.resource).sum ∧
    st'.successPathsCount =
      st.successPathsCount + (l.map fun n => countSuccess n.resource).sum := by
  induction l with
  | nil =>
    intro st st' h
    obtain rfl := Except.ok.inj h
    simp
  | cons n rest ih =>
    intro st st' h
    simp only [runOpenApi] at h
    cases hv : OpenApiVisitor.Visit st n with
    | error e =>
      rw [hv] at h
      exact Except.noConfusion h
    | ok p =>
      obtain ⟨st1, b⟩ := p
      rw [hv] at h
      obtain ⟨hst1, -⟩ := visit_eq_ok hv
      subst hst1
      obtain ⟨h1, h2⟩ := ih _ _ h
      refine ⟨?_, ?_⟩
      · rw [h1, visitState_totalPathsCount]
        simp only [List.map_cons, List.sum_cons]
        omega
      · rw [h2, visitState_successPathsCount]
        simp only [List.map_cons, List.sum_cons]
        omega

theorem processMethod_entryInv (nodes : List NodeInfo) (st : OpenApiState)
    (path u L : String) (h : Option DryRun)
    (hL : L ∈ (["get", "post", "delete", "put"] : List String))
    (hpath : ∃ n ∈ nodes, path = openApiPathKey n.uri n.hasTrailing)
    (hinv : entryInv nodes st.paths) :
    entryInv nodes (processMethod st path u L h).paths := by
  cases h with
  | none => exact hinv
  | some d =>
    cases hd : d.successFragment with
    | none =>
      rw [processMethod_paths_nosucc st path u L (some d) (by simp [optSuccess, hd])]
      exact hinv
    | some v =>
      rw [processMethod_paths_succ st path u L d v hd]
      intro p ms hmem
      rcases setFragment_entry_origin hmem with ⟨ms0, hms0, hor⟩ | ⟨hp, hms⟩
      · obtain ⟨hnode, hkeys⟩ := hinv p ms0 hms0
        refine ⟨hnode, ?_⟩
        intro k w hkw
        rcases hor with rfl | rfl
        · exact hkeys k w hkw
        · rcases List.mem_append.mp hkw with hin | hin
          · exact hkeys k w hin
          · rw [List.mem_singleton, Prod.mk.injEq] at hin
            rw [hin.1]
            exact hL
      · subst hp
        subst hms
        refine ⟨hpath, ?_⟩
        intro k w hkw
        rw [List.mem_singleton, Prod.mk.injEq] at hkw
        rw [hkw.1]
        exact hL

theorem visitState_entryInv (nodes : List NodeInfo) (st : OpenApiState)
    (n : NodeInfo) (hn : n ∈ nodes) (hinv : entryInv nodes st.paths) :
    entryInv nodes (visitState st n).paths := by
  simp only [visitState]
  refine processMethod_entryInv nodes _ _ _ _ _ (by simp) ⟨n, hn, rfl⟩ ?_
  refine processMethod_entryInv nodes _ _ _ _ _ (by simp) ⟨n, hn, rfl⟩ ?_
  refine processMethod_entryInv nodes _ _ _ _ _ (by simp) ⟨n, hn, rfl⟩ ?_
  refine processMethod_entryInv nodes _ _ _ _ _ (by simp) ⟨n, hn, rfl⟩ ?_
  exact hinv

theorem runOpenApi_entryInv (l : List NodeInfo) :
    ∀ (nodes : List NodeInfo) (st st' : OpenApiState),
    (∀ n ∈ l, n ∈ nodes) → runOpenApi l st = .ok st' →
    entryInv nodes st.paths → entryInv nodes st'.paths := by
  induction l with
  | nil =>
    intro nodes st st' hsub h hinv
    obtain rfl := Except.ok.inj h
    exact hinv
  | cons n rest ih =>
    intro nodes st st' hsub h hinv
    simp only [runOpenApi] at h
    cases hv : OpenApiVisitor.Visit st n with
    | error e =>
      rw [hv] at h
      exact Except.noConfusion h
    | ok p =>
      obtain ⟨st1, b⟩ := p
      rw [hv] at h
      obtain ⟨hst1, -⟩ := visit_eq_ok hv
      subst hst1
      exact ih nodes _ _ (fun m hm => hsub m (List.mem_cons_of_mem _ hm)) h
        (visitState_entryInv nodes st n (hsub n (List.mem_cons_self _ _)) hinv)

theorem optSuccess_le_isSome (h : Option DryRun) :
    optSuccess h ≤ (if h.isSome then 1 else 0) := by
  cases h with
  | none => simp [optSuccess]
  | some d => cases hd : d.successFragment <;> simp [optSuccess, hd]

theorem countSuccess_le_countMethods (r : DocResource) :
    countSuccess r ≤ countMethods r := by
  have h1 := optSuccess_le_isSome r.get
  have h2 := optSuccess_le_isSome r.post
  have h3 := optSuccess_le_isSome r.delete
  have h4 := optSuccess_le_isSome r.put
  unfold countSuccess countMethods
  omega

theorem sum_countSuccess_le (l : List NodeInfo) :
    (l.map fun n => countSuccess n.resource).sum ≤
      (l.map fun n => countMethods n.resource).sum := by
  induction l with
  | nil => simp
  | cons n rest ih =>
    simp only [List.map_cons, List.sum_cons]
    have := countSuccess_le_countMethods n.resource
    omega

theorem ite_zero_eq_max (t : Nat) : (if t = 0 then 1 else t) = max t 1 := by
  split <;> omega

/-- Claim C1: for every request, `RestApi::Handle` returns true and
finalizes the wrapped output when the trie lookup with the live-dispatch
visitor reports a match; when it reports no match, `Handle` queries the
accepted methods at that URI and returns false if that set is empty, and
otherwise sends a method-not-allowed response (with the Allow string of
`MethodsToString`) and returns true. -/
theorem restApi_handle_dispatch_fallback (lm : Bool) (acc : MethodSet)
    (headers : List (String × String)) :
    (lm = true → RestApi.Handle lm acc headers =
      { handled := true, convertJsonToXml := negotiateAccept headers,
        actions := [.finalizeWrapped] }) ∧
    (lm = false → acc.isEmpty = true → RestApi.Handle lm acc headers =
      { handled := false, convertJsonToXml := negotiateAccept headers,
        actions := [] }) ∧
    (lm = false → acc.isEmpty = false → RestApi.Handle lm acc headers =
      { handled := true, convertJsonToXml := negotiateAccept headers,
        actions := [.sendMethodNotAllowed (MethodsToString acc)] }) := by
  refine ⟨?_, ?_, ?_⟩
  · intro h
    subst h
    rfl
  · intro h1 h2
    subst h1
    simp [RestApi.Handle, h2]
  · intro h1 h2
    subst h1
    simp [RestApi.Handle, h2]

theorem restApi_handle_dispatch_fallback_witness :
    RestApi.Handle false
        { get := true, post := false, put := false, delete := false } [] =
      { handled := true, convertJsonToXml := negotiateAccept [],
        actions := [.sendMethodNotAllowed (MethodsToString
          { get := true, post := false, put := false, delete := false })] } :=
  (restApi_handle_dispatch_fallback false
    { get := true, post := false, put := false, delete := false } []).2.2 rfl rfl

/-- Claim C2: for every non-empty accepted-method set the Allow string
lists exactly the member methods, comma-separated, in the fixed canonical
order GET, POST, PUT, DELETE; in particular a set holding only GET yields
exactly `"GET"`. -/
theorem methodsToString_canonical (s : MethodSet) (h : s.isEmpty = false) :
    MethodsToString s = String.intercalate "," (canonicalAllowList s) ∧
    (s = { get := true, post := false, put := false, delete := false } →
      MethodsToString s = "GET") := by
  constructor
  · rcases s with ⟨g, p, u, d⟩
    cases g <;> cases p <;> cases u <;> cases d <;> rfl
  · intro hs
    subst hs
    rfl

theorem methodsToString_canonical_witness :
    MethodsToString { get := true, post := false, put := false, delete := false } =
      String.intercalate ","
        (canonicalAllowList { get := true, post := false, put := false, delete := false }) ∧
    (({ get := true, post := false, put := false, delete := false } : MethodSet) =
        { get := true, post := false, put := false, delete := false } →
      MethodsToString { get := true, post := false, put := false, delete := false } =
        "GET") :=
  methodsToString_canonical
    { get := true, post := false, put := false, delete := false } rfl

/-- Claim C3: `RestApi::Handle` decides the output encoding by tokenizing
the Accept header value on `;` and scanning the tokens in order; the XML
token enables JSON-to-XML conversion and the JSON token disables it, so
the last recognized token wins and the default is JSON; in particular
`application/json;application/xml` yields XML mode and
`application/xml;application/json` yields JSON mode. -/
theorem accept_negotiation_last_wins (headers : List (String × String)) :
    (∀ lm acc, (RestApi.Handle lm acc headers).convertJsonToXml =
      negotiateAccept headers) ∧
    (alookup "accept" headers = none → negotiateAccept headers = false) ∧
    (∀ value, alookup "accept" headers = some value →
      negotiateAccept headers = specLastRecognizedWins (tokenizeAccept value)) ∧
    negotiateAccept [("accept", "application/json;application/xml")] = true ∧
    negotiateAccept [("accept", "application/xml;application/json")] = false := by
  refine ⟨?_, ?_, ?_, by decide, by decide⟩
  · intro lm acc
    cases lm <;> by_cases hacc : acc.isEmpty = true <;>
      simp [RestApi.Handle, hacc]
  · intro h
    simp [negotiateAccept, h]
  · intro value hv
    simp only [negotiateAccept, hv]
    rw [foldl_accept_eq]
    simp only [specLastRecognizedWins]

theorem accept_negotiation_last_wins_witness :
    negotiateAccept [("accept", "application/xml")] =
      specLastRecognizedWins (tokenizeAccept "application/xml") :=
  (accept_negotiation_last_wins
    [("accept", "application/xml")]).2.2.1 "application/xml" rfl

/-- Claim C4: for every matched node, the live-dispatch visitor's `Visit`
returns true iff the node has a handler for the request's method (always
one of GET, POST, PUT, DELETE, the whole method type); in that case it
builds the per-method call context — bound arguments, trailing segments,
URI, and body for POST/PUT or query arguments for GET — and invokes that
handler exactly once; otherwise it returns false and invokes nothing. -/
theorem httpHandlerVisitor_visit_dispatch (ctx : LiveVisitorContext)
    (resource : LiveResource) (uri : List String) (hasTrailing : Bool)
    (components : List (String × String)) (trailing : List String) :
    (resource.handlerOf ctx.method = none →
      HttpHandlerVisitor.Visit ctx resource uri hasTrailing components trailing =
        (false, [])) ∧
    (∀ h, ctx.method = .get → resource.get = some h →
      HttpHandlerVisitor.Visit ctx resource uri hasTrailing components trailing =
        (true, [(h, .get ctx.origin ctx.remoteIp ctx.username ctx.headers
                    components trailing uri ctx.getArguments)])) ∧
    (∀ h, ctx.method = .post → resource.post = some h →
      HttpHandlerVisitor.Visit ctx resource uri hasTrailing components trailing =
        (true, [(h, .post ctx.origin ctx.remoteIp ctx.username ctx.headers
                    components trailing uri ctx.body)])) ∧
    (∀ h, ctx.method = .delete → resource.delete = some h →
      HttpHandlerVisitor.Visit ctx resource uri hasTrailing components trailing =
        (true, [(h, .del ctx.origin ctx.remoteIp ctx.username ctx.headers
                    components trailing uri)])) ∧
    (∀ h, ctx.method = .put → resource.put = some h →
      HttpHandlerVisitor.Visit ctx resource uri hasTrailing components trailing =
        (true, [(h, .put ctx.origin ctx.remoteIp ctx.username ctx.headers
                    components trailing uri ctx.body)])) := by
  refine ⟨?_, ?_, ?_, ?_, ?_⟩
  · intro hn
    simp [HttpHandlerVisitor.Visit, hn]
  · intro h hm hr
    simp [HttpHandlerVisitor.Visit, hm, LiveResource.handlerOf, hr]
  · intro h hm hr
    simp [HttpHandlerVisitor.Visit, hm, LiveResource.handlerOf, hr]
  · intro h hm hr
    simp [HttpHandlerVisitor.Visit, hm, LiveResource.handlerOf, hr]
  · intro h hm hr
    simp [HttpHandlerVisitor.Visit, hm, LiveResource.handlerOf, hr]

theorem httpHandlerVisitor_visit_dispatch_witness :
    HttpHandlerVisitor.Visit demoLiveCtx demoLiveResource ["r"] false [] [] =
      (true, [(7, .get demoLiveCtx.origin demoLiveCtx.remoteIp
                  demoLiveCtx.username demoLiveCtx.headers [] [] ["r"]
                  demoLiveCtx.getArguments)]) :=
  (httpHandlerVisitor_visit_dispatch demoLiveCtx demoLiveResource
    ["r"] false [] []).2.1 7 rfl rfl

/-- Claim C5: during a documentation pass, an `OrthancException` or a
`boost::bad_lexical_cast` raised by one method's dry run is caught inside
`OpenApiVisitor::Visit`: that (path, method) entry is omitted from the
paths map, `successPathsCount_` is not incremented for it (only the other
methods' successes count, and that method still strictly separates the two
counters), a warning naming the method and path is logged, and `Visit`
still returns true, so the remaining methods of the node and all later
nodes of the same pass are still probed. -/
theorem openApiVisitor_probe_exception_contained (st : OpenApiState)
    (n : NodeInfo) (rest : List NodeInfo) (m : HttpMethod) (d : DryRun)
    (hfresh : alookup (openApiPathKey n.uri n.hasTrailing) st.paths = none)
    (hm : n.resource.handlerOf m = some d)
    (hthrow : d = .throwOrthanc ∨ d = .throwBadLexicalCast) :
    OpenApiVisitor.Visit st n = .ok (visitState st n, true) ∧
    fragmentLookup (visitState st n) (openApiPathKey n.uri n.hasTrailing)
      (methodLower m) = none ∧
    (visitState st n).totalPathsCount =
      st.totalPathsCount + countMethods n.resource ∧
    (visitState st n).successPathsCount =
      st.successPathsCount + countSuccess n.resource ∧
    countSuccess n.resource + 1 ≤ countMethods n.resource ∧
    docWarning (methodName m) (openApiPathKey n.uri n.hasTrailing) ∈
      (visitState st n).warnings ∧
    runOpenApi (n :: rest) st = runOpenApi rest (visitState st n) := by
  have hdfrag : d.successFragment = none := by
    rcases hthrow with rfl | rfl <;> rfl
  have hvok := visit_fresh_ok st n hfresh
  refine ⟨hvok, ?_, visitState_totalPathsCount st n,
    visitState_successPathsCount st n, ?_, ?_, ?_⟩
  · -- the (path, method) entry is absent from the accumulated map
    have key : ∀ ms,
        alookup (openApiPathKey n.uri n.hasTrailing) (visitState st n).paths =
          some ms → alookup (methodLower m) ms = none := by
      have hcget : ("get" ≠ methodLower m) ∨ optSuccess n.resource.get = 0 := by
        cases m with
        | get =>
          simp only [DocResource.handlerOf] at hm
          exact Or.inr (by simp [hm, optSuccess, hdfrag])
        | post => exact Or.inl (by decide)
        | delete => exact Or.inl (by decide)
        | put => exact Or.inl (by decide)
      have hcpost : ("post" ≠ methodLower m) ∨ optSuccess n.resource.post = 0 := by
        cases m with
        | post =>
          simp only [DocResource.handlerOf] at hm
          exact Or.inr (by simp [hm, optSuccess, hdfrag])
        | get => exact Or.inl (by decide)
        | delete => exact Or.inl (by decide)
        | put => exact Or.inl (by decide)
      have hcdelete : ("delete" ≠ methodLower m) ∨ optSuccess n.resource.delete = 0 := by
        cases m with
        | delete =>
          simp only [DocResource.handlerOf] at hm
          exact Or.inr (by simp [hm, optSuccess, hdfrag])
        | get => exact Or.inl (by decide)
        | post => exact Or.inl (by decide)
        | put => exact Or.inl (by decide)
      have hcput : ("put" ≠ methodLower m) ∨ optSuccess n.resource.put = 0 := by
        cases m with
        | put =>
          simp only [DocResource.handlerOf] at hm
          exact Or.inr (by simp [hm, optSuccess, hdfrag])
        | get => exact Or.inl (by decide)
        | post => exact Or.inl (by decide)
        | delete => exact Or.inl (by decide)
      simp only [visitState]
      refine processMethod_fragment_free _ _ _ _ _ _ hcput ?_
      refine processMethod_fragment_free _ _ _ _ _ _ hcdelete ?_
      refine processMethod_fragment_free _ _ _ _ _ _ hcpost ?_
      refine processMethod_fragment_free _ _ _ _ _ _ hcget ?_
      intro ms hms
      rw [hfresh] at hms
      exact Option.noConfusion hms
    cases hlk : alookup (openApiPathKey n.uri n.hasTrailing) (visitState st n).paths with
    | none => simp [fragmentLookup, hlk]
    | some ms => simp [fragmentLookup, hlk, key ms hlk]
  · -- the throwing method contributes to the total but not to the successes
    have hkey : ∀ x : Option DryRun, x = some d →
        optSuccess x = 0 ∧ (if x.isSome then 1 else 0) = 1 := by
      intro x hx
      subst hx
      simp [optSuccess, hdfrag]
    have e1 := optSuccess_le_isSome n.resource.get
    have e2 := optSuccess_le_isSome n.resource.post
    have e3 := optSuccess_le_isSome n.resource.delete
    have e4 := optSuccess_le_isSome n.resource.put
    cases m with
    | get =>
      simp only [DocResource.handlerOf] at hm
      obtain ⟨ha, hb⟩ := hkey _ hm
      unfold countSuccess countMethods
      omega
    | post =>
      simp only [DocResource.handlerOf] at hm
      obtain ⟨ha, hb⟩ := hkey _ hm
      unfold countSuccess countMethods
      omega
    | delete =>
      simp only [DocResource.handlerOf] at hm
      obtain ⟨ha, hb⟩ := hkey _ hm
      unfold countSuccess countMethods
      omega
    | put =>
      simp only [DocResource.handlerOf] at hm
      obtain ⟨ha, hb⟩ := hkey _ hm
      unfold countSuccess countMethods
      omega
  · -- the warning naming the method and the path is logged
    cases m with
    | get =>
      simp only [visitState, DocResource.handlerOf] at hm ⊢
      apply processMethod_warnings_mono
      apply processMethod_warnings_mono
      apply processMethod_warnings_mono
      rw [hm]
      exact processMethod_warning_added _ _ _ _ d hdfrag
    | post =>
      simp only [visitState, DocResource.handlerOf] at hm ⊢
      apply processMethod_warnings_mono
      apply processMethod_warnings_mono
      rw [hm]
      exact processMethod_warning_added _ _ _ _ d hdfrag
    | delete =>
      simp only [visitState, DocResource.handlerOf] at hm ⊢
      apply processMethod_warnings_mono
      rw [hm]
      exact processMethod_warning_added _ _ _ _ d hdfrag
    | put =>
      simp only [visitState, DocResource.handlerOf] at hm ⊢
      rw [hm]
      exact processMethod_warning_added _ _ _ _ d hdfrag
  · -- the pass continues with the remaining nodes
    simp only [runOpenApi, hvok]

theorem openApiVisitor_probe_exception_contained_witness :
    OpenApiVisitor.Visit initialOpenApiState demoNode =
      .ok (visitState initialOpenApiState demoNode, true) ∧
    fragmentLookup (visitState initialOpenApiState demoNode)
      (openApiPathKey demoNode.uri demoNode.hasTrailing)
      (methodLower .post) = none ∧
    (visitState initialOpenApiState demoNode).totalPathsCount =
      initialOpenApiState.totalPathsCount + countMethods demoNode.resource ∧
    (visitState initialOpenApiState demoNode).successPathsCount =
      initialOpenApiState.successPathsCount + countSuccess demoNode.resource ∧
    countSuccess demoNode.resource + 1 ≤ countMethods demoNode.resource ∧
    docWarning (methodName .post) (openApiPathKey demoNode.uri demoNode.hasTrailing) ∈
      (visitState initialOpenApiState demoNode).warnings ∧
    runOpenApi (demoNode :: [demoTrailingNode]) initialOpenApiState =
      runOpenApi [demoTrailingNode] (visitState initialOpenApiState demoNode) :=
  openApiVisitor_probe_exception_contained initialOpenApiState demoNode
    [demoTrailingNode] .post .throwOrthanc rfl rfl (Or.inl rfl)

/-- Claim C6: a pass over nodes carrying N registered (path, method) pairs
of which M dry-run successfully ends with `totalPathsCount = N` and
`successPathsCount = M` (each present method counted exactly once per
node), and `GenerateOpenApiDocumentation` reports these counters and the
coverage `100 * successCount / max(totalCount, 1)`, so a pass with zero
probed pairs does not divide by zero. -/
theorem generateOpenApi_counts_coverage (nodes : List NodeInfo)
    (st : OpenApiState)
    (h : runOpenApi nodes initialOpenApiState = .ok st) :
    st.totalPathsCount = (nodes.map fun n => countMethods n.resource).sum ∧
    st.successPathsCount = (nodes.map fun n => countSuccess n.resource).sum ∧
    GenerateOpenApiDocumentation nodes =
      .ok { target := Json.obj [("info", Json.obj []),
                                ("openapi", Json.str "3.0.0"),
                                ("servers", Json.arr []),
                                ("paths", pathsToJson st.paths)],
            successCount := st.successPathsCount,
            totalCount := st.totalPathsCount,
            coverage := 100 * (st.successPathsCount : ℚ) /
              ((max st.totalPathsCount 1 : ℕ) : ℚ) } := by
  obtain ⟨h1, h2⟩ := runOpenApi_counts nodes _ _ h
  refine ⟨by simpa [initialOpenApiState] using h1,
    by simpa [initialOpenApiState] using h2, ?_⟩
  simp only [GenerateOpenApiDocumentation, h]
  rw [ite_zero_eq_max]

theorem generateOpenApi_counts_coverage_witness :
    demoState.totalPathsCount =
      (demoNodes.map fun n => countMethods n.resource).sum ∧
    demoState.successPathsCount =
      (demoNodes.map fun n => countSuccess n.resource).sum ∧
    GenerateOpenApiDocumentation demoNodes =
      .ok { target := Json.obj [("info", Json.obj []),
                                ("openapi", Json.str "3.0.0"),
                                ("servers", Json.arr []),
                                ("paths", pathsToJson demoState.paths)],
            successCount := demoState.successPathsCount,
            totalCount := demoState.totalPathsCount,
            coverage := 100 * (demoState.successPathsCount : ℚ) /
              ((max demoState.totalPathsCount 1 : ℕ) : ℚ) } :=
  generateOpenApi_counts_coverage demoNodes demoState rfl

/-- Claim C7: on a completed pass, `GenerateOpenApiDocumentation` produces
a JSON object whose top-level fields are exactly `info` (an object),
`openapi = "3.0.0"`, `servers = []` and `paths` (the visitor's accumulated
map); every key of the paths map is the flattened URI of a visited node
with the literal `/{...}` suffix exactly when that node has a trailing
wildcard, and every per-path entry is keyed by a lowercase method name. -/
theorem generateOpenApi_document_shape (nodes : List NodeInfo)
    (st : OpenApiState)
    (h : runOpenApi nodes initialOpenApiState = .ok st) :
    (∃ r, GenerateOpenApiDocumentation nodes = .ok r ∧
      r.target = Json.obj [("info", Json.obj []),
                           ("openapi", Json.str "3.0.0"),
                           ("servers", Json.arr []),
                           ("paths", pathsToJson st.paths)]) ∧
    (∀ p ms, (p, ms) ∈ st.paths →
      (∃ n ∈ nodes, p = openApiPathKey n.uri n.hasTrailing) ∧
      ∀ k w, (k, w) ∈ ms →
        k ∈ (["get", "post", "delete", "put"] : List String)) := by
  constructor
  · refine ⟨{ target := Json.obj [("info", Json.obj []),
                                  ("openapi", Json.str "3.0.0"),
                                  ("servers", Json.arr []),
                                  ("paths", pathsToJson st.paths)],
              successCount := st.successPathsCount,
              totalCount := st.totalPathsCount,
              coverage := 100 * (st.successPathsCount : ℚ) /
                ((if st.totalPathsCount = 0 then 1
                  else st.totalPathsCount : ℕ) : ℚ) }, ?_, rfl⟩
    simp only [GenerateOpenApiDocumentation, h]
  · have hinv : entryInv nodes initialOpenApiState.paths := by
      intro p ms hmem
      simp [initialOpenApiState] at hmem
    exact runOpenApi_entryInv nodes nodes _ _ (fun n hn => hn) h hinv

theorem generateOpenApi_document_shape_witness :
    (∃ r, GenerateOpenApiDocumentation demoNodes = .ok r ∧
      r.target = Json.obj [("info", Json.obj []),
                           ("openapi", Json.str "3.0.0"),
                           ("servers", Json.arr []),
                           ("paths", pathsToJson demoState.paths)]) ∧
    (∀ p ms, (p, ms) ∈ demoState.paths →
      (∃ n ∈ demoNodes, p = openApiPathKey n.uri n.hasTrailing) ∧
      ∀ k w, (k, w) ∈ ms →
        k ∈ (["get", "post", "delete", "put"] : List String)) :=
  generateOpenApi_document_shape demoNodes demoState rfl

/-- Claim C8: over an unchanged node list (the handlers' dry-run behaviour
is fixed data, hence deterministic), two calls of
`GenerateOpenApiDocumentation` produce identical documents — in particular
identical `paths` content. -/
theorem generateOpenApi_deterministic (nodes : List NodeInfo)
    (r1 r2 : OpenApiDocResult)
    (h1 : GenerateOpenApiDocumentation nodes = .ok r1)
    (h2 : GenerateOpenApiDocumentation nodes = .ok r2) :
    r1.target = r2.target ∧ r1.successCount = r2.successCount ∧
    r1.totalCount = r2.totalCount ∧ r1.coverage = r2.coverage := by
  rw [h1] at h2
  obtain rfl := Except.ok.inj h2
  exact ⟨rfl, rfl, rfl, rfl⟩

theorem generateOpenApi_deterministic_witness :
    demoResult.target = demoResult.target ∧
    demoResult.successCount = demoResult.successCount ∧
    demoResult.totalCount = demoResult.totalCount ∧
    demoResult.coverage = demoResult.coverage :=
  generateOpenApi_deterministic demoNodes demoResult demoResult rfl rfl

/-- Claim C9: after any sequence of `Visit` calls from a freshly
constructed visitor, `successPathsCount_ ≤ totalPathsCount_`, so the
assertion `successCount <= totalCount` in
`GenerateOpenApiDocumentation` always holds. -/
theorem openApi_success_le_total (nodes : List NodeInfo) (st : OpenApiState)
    (h : runOpenApi nodes initialOpenApiState = .ok st) :
    st.successPathsCount ≤ st.totalPathsCount := by
  obtain ⟨h1, h2⟩ := runOpenApi_counts nodes _ _ h
  rw [h1, h2]
  simp only [initialOpenApiState, Nat.zero_add]
  exact sum_countSuccess_le nodes

theorem openApi_success_le_total_witness :
    demoState.successPathsCount ≤ demoState.totalPathsCount :=
  openApi_success_le_total demoNodes demoState rfl

/-- Claim C10: if `OpenApiVisitor::Visit` reaches a node whose flattened
path key is already recorded in the paths map, it throws
`OrthancException(ErrorCode_InternalError)`, and since
`GenerateOpenApiDocumentation` catches nothing, the duplicate aborts the
whole pass instead of merging or overwriting — unlike per-handler probe
failures, which are contained. -/
theorem openApi_duplicate_path_aborts (pre : List NodeInfo) (n : NodeInfo)
    (rest : List NodeInfo) (st : OpenApiState)
    (h1 : runOpenApi pre initialOpenApiState = .ok st)
    (h2 : (alookup (openApiPathKey n.uri n.hasTrailing) st.paths).isSome = true) :
    OpenApiVisitor.Visit st n = .error .internalError ∧
    GenerateOpenApiDocumentation (pre ++ n :: rest) = .error .internalError := by
  have hv : OpenApiVisitor.Visit st n = .error .internalError := by
    unfold OpenApiVisitor.Visit
    rw [if_pos h2]
  refine ⟨hv, ?_⟩
  have happ : runOpenApi (pre ++ n :: rest) initialOpenApiState =
      .error .internalError := by
    rw [runOpenApi_append pre (n :: rest) initialOpenApiState, h1]
    simp only [runOpenApi, hv]
  simp only [GenerateOpenApiDocumentation, happ]

theorem openApi_duplicate_path_aborts_witness :
    OpenApiVisitor.Visit demoState1 demoNode = .error .internalError ∧
    GenerateOpenApiDocumentation ([demoNode] ++ demoNode :: []) =
      .error .internalError :=
  openApi_duplicate_path_aborts [demoNode] demoNode [] demoState1 rfl rfl

end RestApiModel
